import Mathlib

/-!
Verification of the sa-builder git push/build trigger.

Shallow embedding of the Go sources:
- `pkg/sshd/sshd.go` : public-key authentication (`AuthKey`, `compareKeys`)
- `pkg/gitreceive/git` : repo-name sanitization (`cleanRepoName`),
  repository creation (`createRepo`), subprocess error wrapping (`Receive`)
- `pkg/gitreceive/run.go` : ref-update line parsing (`readLine`)
- `pkg/gitreceive/storage/slug_builder_info.go` : storage key/URL derivation
  (`NewSlugBuilderInfo`)

Strings are modelled as `List Char`; byte sequences as `List Nat`.
Go standard-library string operations used by the sources are embedded
with their exact semantics (`strings.Split`, `strings.Contains`,
`strings.Replace(s, q, "", -1)`, `strings.TrimPrefix`, `strings.TrimSuffix`,
`subtle.ConstantTimeCompare`).
-/

namespace SaBuilder

/-- The single-quote character; named to keep literals readable. -/
def squote : Char := Char.ofNat 39

/-! ### Go string operations -/

/-- `strings.Split(s, sep)` for a one-character separator: splits `s` around
each occurrence of `c`, keeping empty fields. `Split("", sep) = [""]`. -/
def goSplit (c : Char) : List Char → List (List Char)
  | [] => [[]]
  | x :: xs =>
    match goSplit c xs with
    | [] => [[]]
    | t :: ts => if x = c then [] :: t :: ts else (x :: t) :: ts

/-- `strings.Contains(s, sub)`: `sub` occurs as a contiguous substring of `s`. -/
def goContains (s sub : List Char) : Bool := decide (sub <:+: s)

/-- `strings.Replace(s, old, "", -1)` for a one-character `old`: removes every
occurrence of the character. -/
def goRemoveAll (c : Char) (s : List Char) : List Char :=
  s.filter (fun ch => decide (ch ≠ c))

/-- `strings.TrimSuffix(s, suf)`: drops one trailing copy of `suf` when present. -/
def goTrimSuffix (s suf : List Char) : List Char :=
  if suf <:+ s then s.take (s.length - suf.length) else s

/-- `strings.TrimPrefix(s, pre)`: drops one leading copy of `pre` when present. -/
def goTrimLeading (s pre : List Char) : List Char :=
  if pre <+: s then s.drop pre.length else s

/-! ### pkg/sshd: public-key authentication -/

/-- An `ssh.PublicKey`: its algorithm name (`Type()`) and its wire encoding
(`Marshal()`). -/
structure PublicKey where
  keyType : List Char
  marshal : List Nat
deriving DecidableEq, Repr

/-- `subtle.ConstantTimeCompare(x, y)`: `1` iff the two byte slices have equal
length and equal contents, `0` otherwise. -/
def constantTimeCompare (x y : List Nat) : Nat :=
  if x.length ≠ y.length then 0
  else if x = y then 1 else 0

/-- `compareKeys` from `pkg/sshd/sshd.go`: algorithm types must match, then the
marshaled byte sequences are compared in constant time. -/
def compareKeys (a b : PublicKey) : Bool :=
  if a.keyType ≠ b.keyType then false
  else decide (constantTimeCompare a.marshal b.marshal = 1)

/-- Result of `AuthKey`. The Go function returns `*ssh.Permissions` (possibly
nil); calling a method on a nil `ssh.PublicKey` interface is a runtime panic,
modelled as `crash`. -/
inductive AuthResult where
  | granted (extensions : List (List Char × List Char))
  | denied
  | crash
deriving DecidableEq, Repr

/-- `AuthKey` from `pkg/sshd/sshd.go`. The read/parse of
`/etc/deistest.pub` is I/O, passed in as `allowed : Option PublicKey`
(`none` when the file is unreadable or unparsable, in which case the Go code
ignores the error and calls `compareKeys(key, nil)`, which dereferences the
nil interface). -/
def AuthKey (key : PublicKey) (allowed : Option PublicKey) : AuthResult :=
  match allowed with
  | none => AuthResult.crash
  | some ak =>
    if compareKeys key ak then
      AuthResult.granted [("user".toList, "builder".toList)]
    else
      AuthResult.denied

/-! ### pkg/gitreceive/git: cleanRepoName -/

/-- `cleanRepoName` from the git receiver: rejects empty names and names
containing `".."`, removes every single quote, then strips one trailing
`".git"` and one leading `"/"`. -/
def cleanRepoName (name : List Char) : Except (List Char) (List Char) :=
  if name.length = 0 then
    Except.error "Empty repo name.".toList
  else if goContains name "..".toList then
    Except.error "Cannot change directory in file name.".toList
  else
    Except.ok (goTrimLeading (goTrimSuffix (goRemoveAll squote name) ".git".toList) "/".toList)

/-! ### pkg/gitreceive/run.go: readLine -/

/-- `readLine` from `pkg/gitreceive/run.go`: splits the line on single spaces
(`strings.Split(line, " ")`); exactly three tokens parse as
`(oldRev, newRev, refName)`, any other count is the error
`malformed line [<line>]`. -/
def readLine (line : List Char) :
    Except (List Char) (List Char × List Char × List Char) :=
  match goSplit ' ' line with
  | [a, b, c] => Except.ok (a, b, c)
  | _ => Except.error ("malformed line [".toList ++ line ++ "]".toList)

/-! ### pkg/gitreceive/storage: slug builder info -/

/-- `SlugBuilderInfo` from `pkg/gitreceive/storage/slug_builder_info.go`. -/
structure SlugBuilderInfo where
  pushKey : List Char
  pushURL : List Char
  tarKey : List Char
  tarURL : List Char
  slugKey : List Char
  slugURL : List Char
deriving DecidableEq, Repr

/-- `NewSlugBuilderInfo` from `slug_builder_info.go`. The environment read
`os.Getenv("DEIS_BUILDER_SERVICE_HOST")` is passed in as `host`; `shortSha`
stands for `gitSha.Short()` (the `git.SHA` type lives outside these sources;
per spec, `Short()` is a fixed-length prefix of the commit hash). -/
def NewSlugBuilderInfo (host appName slugName shortSha : List Char) :
    SlugBuilderInfo :=
  let s3Endpoint := "http://".toList ++ host ++ ":3000".toList
  let tarKey := "home/".toList ++ slugName ++ "/tar".toList
  let pushKey :=
    "home/".toList ++ appName ++ ":git-".toList ++ shortSha ++ "/push".toList
  let slugKey :=
    "home/".toList ++ appName ++ ":git-".toList ++ shortSha ++ "/slug".toList
  { pushKey := pushKey
    pushURL := s3Endpoint ++ "/git/".toList ++ pushKey
    tarKey := tarKey
    tarURL := s3Endpoint ++ "/git/".toList ++ tarKey
    slugKey := slugKey
    slugURL := s3Endpoint ++ "/git/".toList ++ slugKey }

/-! ### pkg/gitreceive/git: Receive subprocess phase -/

/-- Outcome of the git-shell subprocess interaction inside `Receive`: the
first failing step (with the error text Go would render for it), or success.
`errbuff` is modelled separately: it is the stderr captured up to the
failure. -/
inductive ProcOutcome where
  | startErr (e : List Char)
  | copyErr (e : List Char)
  | waitErr (e : List Char)
  | success
deriving DecidableEq, Repr

/-- The subprocess phase of `Receive` (start / io.Copy / wait), with the
exact `fmt.Errorf` wrappings of the source:

* start:  `Failed to start git pre-receive hook: <err> (<errbuff>)`
* copy:   `Failed to write git objects into the git pre-receive hook (<err>)`
* wait:   `Failed to run git pre-receive hook: <errbuff> (<err>)`

Each failure returns immediately; nothing is retried. -/
def receiveSubprocess (errbuff : List Char) (o : ProcOutcome) :
    Except (List Char) Unit :=
  match o with
  | ProcOutcome.startErr e =>
    Except.error ("Failed to start git pre-receive hook: ".toList ++ e ++
      " (".toList ++ errbuff ++ ")".toList)
  | ProcOutcome.copyErr e =>
    Except.error ("Failed to write git objects into the git pre-receive hook (".toList
      ++ e ++ ")".toList)
  | ProcOutcome.waitErr e =>
    Except.error ("Failed to run git pre-receive hook: ".toList ++ errbuff ++
      " (".toList ++ e ++ ")".toList)
  | ProcOutcome.success => Except.ok ()

/-! ### pkg/gitreceive/git: createRepo -/

/-- A filesystem entry: a directory or a regular file. -/
inductive Entry where
  | dir
  | file
deriving DecidableEq, Repr

/-- Filesystem modelled as an association list from paths to entries
(`os.Stat` on this model never fails with an error other than not-exist,
so the Go branch returning a bare stat error is unreachable here). -/
abbrev Fs := List (List Char × Entry)

/-- `os.Stat`: the entry at a path, `none` when it does not exist. -/
def Fs.stat (fs : Fs) (p : List Char) : Option Entry :=
  (fs.find? (fun e => decide (e.1 = p))).map (fun e => e.2)

/-- Result of one `createRepo` call: the filesystem afterwards, the returned
`(bool, error)` pair, and how many `os.MkdirAll` / `git init --bare`
executions the call performed. -/
structure CreateResult where
  fs : Fs
  created : Bool
  err : Option (List Char)
  mkdirRuns : Nat
  gitInitRuns : Nat
deriving DecidableEq, Repr

/-- `createRepo` from the git receiver, for the executions in which
`os.MkdirAll` and `git init --bare` themselves succeed: stat the path; an
existing directory is left alone (`false, nil`); a missing path is created
with one mkdir and one `git init --bare` (`true, nil`); an existing
non-directory is an error. The whole sequence runs under the process-wide
`createLock` mutex, so calls are serialized. -/
def createRepo (fs : Fs) (p : List Char) : CreateResult :=
  match Fs.stat fs p with
  | some Entry.dir => ⟨fs, false, none, 0, 0⟩
  | some Entry.file =>
    ⟨fs, false, some "Expected directory, found file.".toList, 0, 0⟩
  | none => ⟨(p, Entry.dir) :: fs, true, none, 1, 1⟩

/-- `n` serialized invocations of `createRepo` on the same path — the order
the `createLock` mutex imposes on concurrent callers. Returns the final
filesystem and the total number of `git init --bare` executions. -/
def runCalls (fs : Fs) (p : List Char) : Nat → Fs × Nat
  | 0 => (fs, 0)
  | n + 1 =>
    let r := createRepo fs p
    let rest := runCalls r.fs p n
    (rest.1, r.gitInitRuns + rest.2)

/-! ## Helper lemmas -/

theorem constantTimeCompare_eq_one_iff (x y : List Nat) :
    constantTimeCompare x y = 1 ↔ x = y := by
  unfold constantTimeCompare
  split_ifs with h1 h2
  · constructor
    · intro h; cases h
    · intro he; exact absurd (congrArg List.length he) h1
  · simp [h2]
  · simp [h2]

theorem compareKeys_eq_true_iff (a b : PublicKey) :
    compareKeys a b = true ↔ a = b := by
  obtain ⟨t₁, m₁⟩ := a
  obtain ⟨t₂, m₂⟩ := b
  unfold compareKeys
  split_ifs with h
  · simp only [Bool.false_eq_true, false_iff]
    intro he
    exact h (by cases he; rfl)
  · push_neg at h
    simp only [PublicKey.keyType] at h
    simp [constantTimeCompare_eq_one_iff, h]

theorem mem_goTrimSuffix {a : Char} {s suf : List Char}
    (h : a ∈ goTrimSuffix s suf) : a ∈ s := by
  unfold goTrimSuffix at h
  split at h
  · exact List.take_subset _ _ h
  · exact h

theorem mem_goTrimLeading {a : Char} {s pre : List Char}
    (h : a ∈ goTrimLeading s pre) : a ∈ s := by
  unfold goTrimLeading at h
  split at h
  · exact List.drop_subset _ _ h
  · exact h

/-- Every name `cleanRepoName` returns is free of single quotes. -/
theorem cleanRepoName_no_quote {name r : List Char}
    (h : cleanRepoName name = Except.ok r) : squote ∉ r := by
  intro hmem
  unfold cleanRepoName at h
  split_ifs at h
  cases h
  have hmem2 : squote ∈ goRemoveAll squote name :=
    mem_goTrimSuffix (mem_goTrimLeading hmem)
  unfold goRemoveAll at hmem2
  have := (List.mem_filter.mp hmem2).2
  simp at this

/-! ## Claim theorems -/

/-- C1: when the authorized key parses to `ak`, `AuthKey` grants a session
with the single extension `user=builder` iff the presented key's algorithm
type and marshaled bytes both equal those of `ak`; any key differing from the
authorized key (in at least one bit of its type or encoding) gets no
permission. -/
theorem authKey_grant_iff (k ak : PublicKey) :
    (AuthKey k (some ak) =
        AuthResult.granted [("user".toList, "builder".toList)] ↔
      k.keyType = ak.keyType ∧ k.marshal = ak.marshal) ∧
    (k ≠ ak → AuthKey k (some ak) = AuthResult.denied) := by
  by_cases hc : compareKeys k ak = true
  · have hk : k = ak := (compareKeys_eq_true_iff k ak).mp hc
    subst hk
    constructor
    · simp [AuthKey, hc]
    · intro hne; exact absurd rfl hne
  · have hk : k ≠ ak := fun he => hc ((compareKeys_eq_true_iff k ak).mpr he)
    constructor
    · simp only [AuthKey, hc, if_false]
      constructor
      · intro h; cases h
      · intro ⟨ht, hm⟩
        exact absurd (by cases k; cases ak; cases ht; cases hm; rfl) hk
    · intro _
      simp [AuthKey, hc]

/-- C1 witness: a key whose marshaled bytes differ from the authorized key's
in one bit is denied. -/
theorem authKey_grant_iff_witness :
    (⟨"ssh-rsa".toList, [1]⟩ : PublicKey) ≠ ⟨"ssh-rsa".toList, [3]⟩ ∧
    AuthKey ⟨"ssh-rsa".toList, [1]⟩ (some ⟨"ssh-rsa".toList, [3]⟩) =
      AuthResult.denied :=
  ⟨by decide, (authKey_grant_iff ⟨"ssh-rsa".toList, [1]⟩
      ⟨"ssh-rsa".toList, [3]⟩).2 (by decide)⟩

/-- C2: when the authorized-key file is unreadable or unparsable
(`ssh.ParseAuthorizedKey` yields a nil key whose error is ignored),
`AuthKey` does not terminate normally denying access — it dereferences the
nil `ssh.PublicKey` inside `compareKeys` and panics. The claim (and the
spec's "no identity can ever authenticate") describes the intent; the code
crashes instead. -/
theorem authKey_unparsable_key_crashes :
    AuthKey ⟨"ssh-rsa".toList, [0, 1, 2]⟩ none = AuthResult.crash := rfl

/-- C3 counterexample: `cleanRepoName` succeeds on inputs for which the
claimed postconditions fail — the result of sanitizing `"'"` is empty, the
result for `"//a"` starts with `"/"`, and the result for `"a.git.git"` ends
in `".git"` (only one suffix copy is stripped). -/
theorem cleanRepoName_postconditions_cex :
    cleanRepoName [squote] = Except.ok [] ∧
    cleanRepoName "//a".toList = Except.ok "/a".toList ∧
    cleanRepoName "a.git.git".toList = Except.ok "a.git".toList ∧
    ([] : List Char).length = 0 ∧
    "/".toList <+: "/a".toList ∧
    ".git".toList <:+ "a.git".toList :=
  ⟨rfl, rfl, rfl, rfl, by decide, by decide⟩

/-- C3 (amended): `cleanRepoName` errors exactly on the empty name and names
containing `".."`; on success the result contains no single-quote character
(but may be empty, may start with `"/"`, and may end in `".git"`). -/
theorem cleanRepoName_error_iff (name : List Char) :
    ((cleanRepoName name).isOk = true ↔
      ¬ (name = [] ∨ "..".toList <:+: name)) ∧
    (∀ r, cleanRepoName name = Except.ok r → squote ∉ r) := by
  refine ⟨?_, fun r h => cleanRepoName_no_quote h⟩
  unfold cleanRepoName goContains
  split_ifs with h1 h2
  · simp [Except.isOk, Except.toBool, List.length_eq_zero.mp h1]
  · simp only [decide_eq_true_eq] at h2
    have h2x : ['.', '.'] <:+: name := h2
    simp [Except.isOk, Except.toBool, h2x]
  · simp only [decide_eq_true_eq] at h2
    have h2x : ¬ ['.', '.'] <:+: name := h2
    have : name ≠ [] := fun he => h1 (by simp [he])
    simp [Except.isOk, Except.toBool, this, h2x]

/-- C3 witness: `"repo"` is accepted and the iff's right side holds for
it, while the returned name has no quotes. -/
theorem cleanRepoName_error_iff_witness :
    (cleanRepoName "repo".toList).isOk = true ∧
    cleanRepoName "repo".toList = Except.ok "repo".toList ∧
    squote ∉ "repo".toList :=
  ⟨((cleanRepoName_error_iff "repo".toList).1).mpr (by decide), rfl,
    (cleanRepoName_error_iff "repo".toList).2 "repo".toList rfl⟩

/-- C7 counterexample: `cleanRepoName` is not idempotent — it succeeds on
`"a.git.git"` returning `"a.git"`, and applying it again strips another
suffix, returning `"a" ≠ "a.git"`. -/
theorem cleanRepoName_not_idempotent :
    cleanRepoName "a.git.git".toList = Except.ok "a.git".toList ∧
    cleanRepoName "a.git".toList = Except.ok "a".toList ∧
    "a.git".toList ≠ "a".toList :=
  ⟨rfl, rfl, by decide⟩

/-- C7 (amended): `cleanRepoName` is idempotent only on outputs that are
already fully sanitized: if a successful result `r` is non-empty, contains
no `".."`, does not end in `".git"`, and does not start with `"/"`, then
re-sanitizing `r` succeeds and returns `r` unchanged. (Outputs violating
these conditions exist and break idempotence.) -/
theorem cleanRepoName_idempotent_on_sanitized (name r : List Char)
    (h : cleanRepoName name = Except.ok r)
    (hne : r ≠ [])
    (hdd : ¬ "..".toList <:+: r)
    (hsuf : ¬ ".git".toList <:+ r)
    (hpre : ¬ "/".toList <+: r) :
    cleanRepoName r = Except.ok r := by
  have hq : squote ∉ r := cleanRepoName_no_quote h
  have hfilter : goRemoveAll squote r = r := by
    unfold goRemoveAll
    rw [List.filter_eq_self]
    intro a ha
    simp only [decide_eq_true_eq]
    intro he
    exact hq (he ▸ ha)
  unfold cleanRepoName goContains
  rw [if_neg (by simpa using hne), if_neg (by simpa using hdd), hfilter]
  unfold goTrimSuffix goTrimLeading
  rw [if_neg hsuf, if_neg hpre]

/-- C7 witness: re-sanitizing the sanitized name `"abc"` is the identity. -/
theorem cleanRepoName_idempotent_witness :
    cleanRepoName "abc".toList = Except.ok "abc".toList ∧
    cleanRepoName "abc".toList = Except.ok "abc".toList :=
  ⟨rfl, cleanRepoName_idempotent_on_sanitized "abc".toList "abc".toList rfl
    (by decide) (by decide) (by decide) (by decide)⟩

/-- C6: `readLine` succeeds iff splitting the line on single spaces yields
exactly three tokens, returned in order as `(oldSHA, newSHA, refName)`; any
other token count produces the parse error naming the offending line. The
spec's concrete examples hold: `"abc123 def456 refs/heads/master"` parses to
its three tokens, while `"abc123 def456"` and `"a b c d"` fail. -/
theorem readLine_three_tokens (line a b c : List Char) :
    (readLine line = Except.ok (a, b, c) ↔ goSplit ' ' line = [a, b, c]) ∧
    ((goSplit ' ' line).length ≠ 3 →
      readLine line =
        Except.error ("malformed line [".toList ++ line ++ "]".toList)) ∧
    readLine "abc123 def456 refs/heads/master".toList =
      Except.ok ("abc123".toList, "def456".toList, "refs/heads/master".toList) ∧
    (readLine "abc123 def456".toList).isOk = false ∧
    (readLine "a b c d".toList).isOk = false := by
  refine ⟨⟨?_, ?_⟩, ?_, rfl, rfl, rfl⟩
  · intro h
    unfold readLine at h
    split at h
    · next a0 b0 c0 heq =>
      cases h
      exact heq
    · cases h
  · intro h
    unfold readLine
    rw [h]
  · intro h
    unfold readLine
    split
    · next a0 b0 c0 heq =>
      rw [heq] at h
      simp at h
    · rfl

/-- C6 witness: a four-token line takes the error branch with the exact
message. -/
theorem readLine_three_tokens_witness :
    (goSplit ' ' "a b c d".toList).length ≠ 3 ∧
    readLine "a b c d".toList =
      Except.error ("malformed line [".toList ++ "a b c d".toList ++
        "]".toList) :=
  ⟨by decide,
    (readLine_three_tokens "a b c d".toList [] [] []).2.1 (by decide)⟩

/-- C8 counterexample: a failure of the stdin copy step is wrapped with only
the copy error; with captured stderr `"boom"` and copy error `"EOF"`, the
returned message does not contain the stderr buffer contents. -/
theorem receive_copy_error_drops_stderr :
    receiveSubprocess "boom".toList (ProcOutcome.copyErr "EOF".toList) =
      Except.error
        "Failed to write git objects into the git pre-receive hook (EOF)".toList ∧
    ¬ ("boom".toList <:+:
        "Failed to write git objects into the git pre-receive hook (EOF)".toList) :=
  ⟨rfl, by decide⟩

/-- C8 (amended): every failure of the subprocess interaction makes
`Receive` return an error and the operation is not retried; the error
message includes the captured stderr buffer for start and wait failures,
while a copy failure is wrapped with only the copy error itself. -/
theorem receive_error_wrapping (errbuff e : List Char) :
    (∃ msg, receiveSubprocess errbuff (ProcOutcome.startErr e) =
        Except.error msg ∧ errbuff <:+: msg) ∧
    (∃ msg, receiveSubprocess errbuff (ProcOutcome.waitErr e) =
        Except.error msg ∧ errbuff <:+: msg) ∧
    (∃ msg, receiveSubprocess errbuff (ProcOutcome.copyErr e) =
        Except.error msg) := by
  refine ⟨⟨_, rfl, ?_⟩, ⟨_, rfl, ?_⟩, ⟨_, rfl⟩⟩
  · exact ⟨"Failed to start git pre-receive hook: ".toList ++ e ++ " (".toList,
      ")".toList, by simp⟩
  · exact ⟨"Failed to run git pre-receive hook: ".toList,
      " (".toList ++ e ++ ")".toList, by simp⟩

/-- On a filesystem whose entry at `p` is a directory, repeated `createRepo`
calls change nothing and never run `git init`. -/
theorem runCalls_existing_dir (fs : Fs) (p : List Char)
    (h : Fs.stat fs p = some Entry.dir) :
    ∀ n, runCalls fs p n = (fs, 0) := by
  intro n
  induction n with
  | zero => rfl
  | succ n ih =>
    unfold runCalls
    simp [createRepo, h, ih]

/-- C9: `createRepo` is idempotent — when a call creates the repository
(returns `true`), a further call on the resulting filesystem performs no
mkdir and no `git init`, leaves the filesystem unchanged, and returns
`false` with no error. -/
theorem createRepo_idempotent (fs : Fs) (p : List Char)
    (h : (createRepo fs p).created = true) :
    createRepo (createRepo fs p).fs p =
      ⟨(createRepo fs p).fs, false, none, 0, 0⟩ := by
  rcases hstat : Fs.stat fs p with _ | e
  · simp only [createRepo, hstat]
    have : Fs.stat ((p, Entry.dir) :: fs) p = some Entry.dir := by
      simp [Fs.stat, List.find?]
    simp [createRepo, this]
  · cases e
    · simp [createRepo, hstat]
    · simp [createRepo, hstat] at h

/-- C9 witness: create `"r"` on the empty filesystem, then call again. -/
theorem createRepo_idempotent_witness :
    (createRepo ([] : Fs) "r".toList).created = true ∧
    createRepo (createRepo ([] : Fs) "r".toList).fs "r".toList =
      ⟨(createRepo ([] : Fs) "r".toList).fs, false, none, 0, 0⟩ :=
  ⟨rfl, createRepo_idempotent [] "r".toList rfl⟩

/-- C10: under the serialization imposed by the process-wide `createLock`
mutex (each call's stat+mkdir+git-init sequence runs atomically, so any
concurrent schedule is some sequential order of complete calls), `n ≥ 1`
invocations of `createRepo` on the same initially-absent path execute
`git init --bare` exactly once in total. -/
theorem createRepo_concurrent_single_init (fs : Fs) (p : List Char) (n : Nat)
    (habs : Fs.stat fs p = none) (hn : 1 ≤ n) :
    (runCalls fs p n).2 = 1 := by
  cases n with
  | zero => cases hn
  | succ m =>
    unfold runCalls
    simp only [createRepo, habs]
    have hdir : Fs.stat ((p, Entry.dir) :: fs) p = some Entry.dir := by
      simp [Fs.stat, List.find?]
    rw [runCalls_existing_dir ((p, Entry.dir) :: fs) p hdir m]
    rfl

/-- C10 witness: three serialized calls on an absent path run one git init. -/
theorem createRepo_concurrent_single_init_witness :
    Fs.stat ([] : Fs) "r".toList = none ∧ 1 ≤ 3 ∧
    (runCalls ([] : Fs) "r".toList 3).2 = 1 :=
  ⟨rfl, by decide,
    createRepo_concurrent_single_init [] "r".toList 3 rfl (by decide)⟩

/-- Splitting at a separator character that occurs in neither left part is
unambiguous. -/
theorem append_single_sep_inj {c : Char} {x₁ x₂ y₁ y₂ : List Char}
    (h₁ : c ∉ x₁) (h₂ : c ∉ x₂)
    (h : x₁ ++ c :: y₁ = x₂ ++ c :: y₂) : x₁ = x₂ ∧ y₁ = y₂ := by
  induction x₁ generalizing x₂ with
  | nil =>
    cases x₂ with
    | nil => simpa using h
    | cons z zs =>
      simp only [List.nil_append, List.cons_append, List.cons.injEq] at h
      obtain ⟨hcz, -⟩ := h
      cases hcz
      exact absurd (List.mem_cons_self c zs) h₂
  | cons a as ih =>
    cases x₂ with
    | nil =>
      simp only [List.cons_append, List.nil_append, List.cons.injEq] at h
      obtain ⟨hca, -⟩ := h
      cases hca
      exact absurd (List.mem_cons_self c as) h₁
    | cons b bs =>
      simp only [List.cons_append, List.cons.injEq] at h
      obtain ⟨hab, ht⟩ := h
      obtain ⟨hx, hy⟩ :=
        ih (fun hm => h₁ (List.mem_cons_of_mem a hm))
          (fun hm => h₂ (List.mem_cons_of_mem b hm)) ht
      exact ⟨by rw [hab, hx], hy⟩

/-- The `home/<app>:git-<sha><tail>` key scheme determines `app` and `sha`
as long as app names are colon-free. -/
theorem key_segment_inj {a₁ a₂ s₁ s₂ tail : List Char}
    (hc₁ : ':' ∉ a₁) (hc₂ : ':' ∉ a₂)
    (h : "home/".toList ++ a₁ ++ ":git-".toList ++ s₁ ++ tail =
        "home/".toList ++ a₂ ++ ":git-".toList ++ s₂ ++ tail) :
    a₁ = a₂ ∧ s₁ = s₂ := by
  simp only [List.append_assoc] at h
  have h1 := List.append_cancel_left h
  have h2 : a₁ ++ ':' :: ("git-".toList ++ (s₁ ++ tail)) =
      a₂ ++ ':' :: ("git-".toList ++ (s₂ ++ tail)) := h1
  obtain ⟨ha, hrest⟩ := append_single_sep_inj hc₁ hc₂ h2
  have hs := List.append_cancel_right (List.append_cancel_left hrest)
  exact ⟨ha, hs⟩

/-- Full URLs under the same endpoint also determine `app` and `sha`. -/
theorem url_segment_inj {host a₁ a₂ s₁ s₂ tail : List Char}
    (hc₁ : ':' ∉ a₁) (hc₂ : ':' ∉ a₂)
    (h : "http://".toList ++ host ++ ":3000".toList ++ "/git/".toList ++
          ("home/".toList ++ a₁ ++ ":git-".toList ++ s₁ ++ tail) =
        "http://".toList ++ host ++ ":3000".toList ++ "/git/".toList ++
          ("home/".toList ++ a₂ ++ ":git-".toList ++ s₂ ++ tail)) :
    a₁ = a₂ ∧ s₁ = s₂ := by
  simp only [List.append_assoc] at h
  have h1 := List.append_cancel_left (List.append_cancel_left h)
  have h2 := List.append_cancel_left (List.append_cancel_left h1)
  have h3 : a₁ ++ ':' :: ("git-".toList ++ (s₁ ++ tail)) =
      a₂ ++ ':' :: ("git-".toList ++ (s₂ ++ tail)) :=
    List.append_cancel_left h2
  obtain ⟨ha, hrest⟩ := append_single_sep_inj hc₁ hc₂ h3
  have hs := List.append_cancel_right (List.append_cancel_left hrest)
  exact ⟨ha, hs⟩

/-- C4 counterexample: the tar key and tar URL depend only on `slugName`, so
two invocations with distinct `(appName, shortSHA)` but the same slug name
produce identical tar outputs. -/
theorem slugBuilderInfo_tar_collision :
    (NewSlugBuilderInfo "h".toList "a".toList "s".toList "1".toList).tarKey =
      (NewSlugBuilderInfo "h".toList "b".toList "s".toList "2".toList).tarKey ∧
    (NewSlugBuilderInfo "h".toList "a".toList "s".toList "1".toList).tarURL =
      (NewSlugBuilderInfo "h".toList "b".toList "s".toList "2".toList).tarURL ∧
    "a".toList ≠ "b".toList ∧ "1".toList ≠ "2".toList :=
  ⟨rfl, rfl, by decide, by decide⟩

/-- C4 (amended): `NewSlugBuilderInfo` is deterministic (re-invocation with
identical inputs yields identical outputs), and its push and slug keys and
URLs are pairwise distinct across invocations differing in `appName` or
`shortSHA`, provided the app names contain no `':'`; the tar key and URL
depend only on `slugName` and therefore coincide whenever the slug names
coincide. -/
theorem slugBuilderInfo_distinct (host a₁ a₂ sl₁ sl₂ s₁ s₂ : List Char)
    (hc₁ : ':' ∉ a₁) (hc₂ : ':' ∉ a₂)
    (hne : a₁ ≠ a₂ ∨ s₁ ≠ s₂) :
    NewSlugBuilderInfo host a₁ sl₁ s₁ = NewSlugBuilderInfo host a₁ sl₁ s₁ ∧
    (NewSlugBuilderInfo host a₁ sl₁ s₁).pushKey ≠
      (NewSlugBuilderInfo host a₂ sl₂ s₂).pushKey ∧
    (NewSlugBuilderInfo host a₁ sl₁ s₁).pushURL ≠
      (NewSlugBuilderInfo host a₂ sl₂ s₂).pushURL ∧
    (NewSlugBuilderInfo host a₁ sl₁ s₁).slugKey ≠
      (NewSlugBuilderInfo host a₂ sl₂ s₂).slugKey ∧
    (NewSlugBuilderInfo host a₁ sl₁ s₁).slugURL ≠
      (NewSlugBuilderInfo host a₂ sl₂ s₂).slugURL := by
  have finish : a₁ = a₂ ∧ s₁ = s₂ → False := by
    intro ⟨ha, hs⟩
    rcases hne with hne | hne
    · exact hne ha
    · exact hne hs
  refine ⟨rfl, ?_, ?_, ?_, ?_⟩
  · intro h
    have h' : "home/".toList ++ a₁ ++ ":git-".toList ++ s₁ ++ "/push".toList =
        "home/".toList ++ a₂ ++ ":git-".toList ++ s₂ ++ "/push".toList := h
    exact finish (key_segment_inj hc₁ hc₂ h')
  · intro h
    have h' : "http://".toList ++ host ++ ":3000".toList ++ "/git/".toList ++
          ("home/".toList ++ a₁ ++ ":git-".toList ++ s₁ ++ "/push".toList) =
        "http://".toList ++ host ++ ":3000".toList ++ "/git/".toList ++
          ("home/".toList ++ a₂ ++ ":git-".toList ++ s₂ ++ "/push".toList) := h
    exact finish (url_segment_inj hc₁ hc₂ h')
  · intro h
    have h' : "home/".toList ++ a₁ ++ ":git-".toList ++ s₁ ++ "/slug".toList =
        "home/".toList ++ a₂ ++ ":git-".toList ++ s₂ ++ "/slug".toList := h
    exact finish (key_segment_inj hc₁ hc₂ h')
  · intro h
    have h' : "http://".toList ++ host ++ ":3000".toList ++ "/git/".toList ++
          ("home/".toList ++ a₁ ++ ":git-".toList ++ s₁ ++ "/slug".toList) =
        "http://".toList ++ host ++ ":3000".toList ++ "/git/".toList ++
          ("home/".toList ++ a₂ ++ ":git-".toList ++ s₂ ++ "/slug".toList) := h
    exact finish (url_segment_inj hc₁ hc₂ h')

/-- C4 witness: colon-free apps `"a"` and `"b"` with distinct SHAs get
distinct push keys. -/
theorem slugBuilderInfo_distinct_witness :
    (':' ∉ "a".toList) ∧ (':' ∉ "b".toList) ∧
    ("a".toList ≠ "b".toList ∨ "1".toList ≠ "2".toList) ∧
    (NewSlugBuilderInfo "h".toList "a".toList "s".toList "1".toList).pushKey ≠
      (NewSlugBuilderInfo "h".toList "b".toList "s".toList "2".toList).pushKey :=
  ⟨by decide, by decide, Or.inl (by decide),
    (slugBuilderInfo_distinct "h".toList "a".toList "b".toList "s".toList
      "s".toList "1".toList "2".toList (by decide) (by decide)
      (Or.inl (by decide))).2.1⟩

/-- C5: the exact key and URL scheme of `NewSlugBuilderInfo`:
`tarKey = home/<slugName>/tar`, `pushKey = home/<appName>:git-<sha>/push`,
`slugKey = home/<appName>:git-<sha>/slug`, and each URL is the configured
endpoint root (`http://<host>:3000`) joined with `/git/` and the
corresponding key. -/
theorem newSlugBuilderInfo_exact (host appName slugName shortSha : List Char) :
    (NewSlugBuilderInfo host appName slugName shortSha).tarKey =
      "home/".toList ++ slugName ++ "/tar".toList ∧
    (NewSlugBuilderInfo host appName slugName shortSha).pushKey =
      "home/".toList ++ appName ++ ":git-".toList ++ shortSha ++
        "/push".toList ∧
    (NewSlugBuilderInfo host appName slugName shortSha).slugKey =
      "home/".toList ++ appName ++ ":git-".toList ++ shortSha ++
        "/slug".toList ∧
    (NewSlugBuilderInfo host appName slugName shortSha).tarURL =
      ("http://".toList ++ host ++ ":3000".toList) ++ "/git/".toList ++
        (NewSlugBuilderInfo host appName slugName shortSha).tarKey ∧
    (NewSlugBuilderInfo host appName slugName shortSha).pushURL =
      ("http://".toList ++ host ++ ":3000".toList) ++ "/git/".toList ++
        (NewSlugBuilderInfo host appName slugName shortSha).pushKey ∧
    (NewSlugBuilderInfo host appName slugName shortSha).slugURL =
      ("http://".toList ++ host ++ ":3000".toList) ++ "/git/".toList ++
        (NewSlugBuilderInfo host appName slugName shortSha).slugKey :=
  ⟨rfl, rfl, rfl, rfl, rfl, rfl⟩

end SaBuilder
